import Mathlib

/-
Verification of the ingredient-reservation and retry core of the pantry
service (src/pantry-service/src/index.ts).

The embedding models:
  - the pantry_stock table as an association list String -> Int, mutated only
    inside one reservation attempt's transaction (SELECT FOR UPDATE serializes
    concurrent attempts per ingredient, so a single attempt sees a stable row);
  - buyFromMarket as a loop over a trace of market responses (each HTTP call
    either returns a quantitySold or throws, which the code catches);
  - handleIngredientRequest's two phases, with COMMIT publishing the
    transaction-local writes and ROLLBACK discarding them;
  - scheduleIngredientRetry over the process-local retryAttempts map;
  - an optional injected database error (failAt) standing for a throwing
    client.query call while processing the n-th recipe entry, which the code
    catches, rolling the transaction back and scheduling a retry.

Prices are modelled in cents (1.50 becomes 150), which is exact for the
two-decimal price table of getIngredientPrice.
-/

namespace Pantry

/-! ## Association-list maps (JS Map / SQL table keyed by a unique column) -/

def alistLookup {α β : Type} [DecidableEq α] : List (α × β) → α → Option β
  | [], _ => none
  | (k, v) :: rest, x => if k = x then some v else alistLookup rest x

def alistErase {α β : Type} [DecidableEq α] : List (α × β) → α → List (α × β)
  | [], _ => []
  | p :: rest, k => if p.1 = k then alistErase rest k else p :: alistErase rest k

def alistSet {α β : Type} [DecidableEq α] (m : List (α × β)) (k : α) (v : β) : List (α × β) :=
  (k, v) :: alistErase m k

theorem alistLookup_erase_self {α β : Type} [DecidableEq α] (m : List (α × β)) (k : α) :
    alistLookup (alistErase m k) k = none := by
  induction m with
  | nil => rfl
  | cons p rest ih =>
      by_cases h : p.1 = k
      · simpa [alistErase, h] using ih
      · simpa [alistErase, h, alistLookup] using ih

theorem alistLookup_erase_ne {α β : Type} [DecidableEq α] (m : List (α × β)) (k x : α)
    (h : x ≠ k) : alistLookup (alistErase m k) x = alistLookup m x := by
  induction m with
  | nil => rfl
  | cons p rest ih =>
      by_cases hp : p.1 = k
      · have hpx : ¬ p.1 = x := by
          intro hx
          exact h (hx ▸ hp)
        have hk : ¬ k = x := fun hh => h hh.symm
        simp [alistErase, hp, alistLookup, hpx, hk, ih]
      · by_cases hx : p.1 = x
        · simp [alistErase, hp, alistLookup, hx, h]
        · simp [alistErase, hp, alistLookup, hx, h, ih]

theorem alistLookup_set_self {α β : Type} [DecidableEq α] (m : List (α × β)) (k : α) (v : β) :
    alistLookup (alistSet m k v) k = some v := by
  simp [alistSet, alistLookup]

theorem alistLookup_set_ne {α β : Type} [DecidableEq α] (m : List (α × β)) (k x : α) (v : β)
    (h : x ≠ k) : alistLookup (alistSet m k v) x = alistLookup m x := by
  have hk : k ≠ x := fun hh => h hh.symm
  simp [alistSet, alistLookup, hk, alistLookup_erase_ne m k x h]

/-! ## The stock table -/

def lookupStock (stock : List (String × Int)) (ingredient : String) : Int :=
  (alistLookup stock ingredient).getD 0

def setStock (stock : List (String × Int)) (ingredient : String) (q : Int) :
    List (String × Int) :=
  alistSet stock ingredient q

theorem lookupStock_set_self (stock : List (String × Int)) (ing : String) (q : Int) :
    lookupStock (setStock stock ing q) ing = q := by
  simp [lookupStock, setStock, alistLookup_set_self]

theorem lookupStock_set_ne (stock : List (String × Int)) (ing x : String) (q : Int)
    (h : x ≠ ing) : lookupStock (setStock stock ing q) x = lookupStock stock x := by
  simp [lookupStock, setStock, alistLookup_set_ne stock ing x q h]

/-! ## Market gateway (buyFromMarket) -/

/-- One HTTP call to the farmers-market endpoint: either a response with a
`quantitySold` field, or a request error (timeout etc.), which the code
catches inside the loop. -/
inductive MarketEvent where
  | ok (quantitySold : Nat)
  | err
  deriving Repr, DecidableEq

/-- A row of the market_purchases table (prices in cents). -/
structure MarketPurchase where
  ingredient : String
  quantity_requested : Nat
  quantity_sold : Nat
  price_per_unit : Nat
  total_cost : Nat
  deriving Repr, DecidableEq

/-- ingredient.toLowerCase(): ASCII lowercasing of the lookup key (all keys
of the price table are ASCII). -/
def toLowerCase (s : String) : String :=
  ⟨s.data.map Char.toLower⟩

/-- The simulated per-ingredient price table of getIngredientPrice, in cents;
2.00 (200) is the default for unknown ingredients. -/
def getIngredientPrice (ingredient : String) : Nat :=
  let key := toLowerCase ingredient
  if key = "potato" then 150
  else if key = "tomato" then 200
  else if key = "cheese" then 450
  else if key = "meat" then 800
  else if key = "rice" then 120
  else if key = "lemon" then 80
  else if key = "onion" then 100
  else if key = "garlic" then 300
  else if key = "pepper" then 250
  else if key = "salt" then 50
  else if key = "oil" then 350
  else if key = "bread" then 220
  else 200

/-- The observable result of one buyFromMarket loop: the returned
totalPurchased, the market_purchases rows inserted, the sleep durations (ms)
in order, the final backoffDelay, and the market responses consumed. -/
structure BuyResult where
  totalPurchased : Nat
  purchases : List MarketPurchase
  sleeps : List Nat
  finalBackoff : Nat
  consumed : List MarketEvent
  deriving Repr, DecidableEq

/-- One iteration body of the while loop: returns the new totalPurchased, the
rows inserted by this call, and the backoffDelay after the call (reset to
1000 on a positive sale, unchanged on an empty response or an error). -/
def marketStep (ingredient : String) (quantity totalPurchased backoffDelay : Nat)
    (e : MarketEvent) : Nat × List MarketPurchase × Nat :=
  match e with
  | MarketEvent.ok q =>
      if 0 < q then
        (totalPurchased + q,
         [⟨ingredient, quantity - totalPurchased, q, getIngredientPrice ingredient,
           q * getIngredientPrice ingredient⟩],
         1000)
      else (totalPurchased, [], backoffDelay)
  | MarketEvent.err => (totalPurchased, [], backoffDelay)

/-- The while (totalPurchased < quantity) loop of buyFromMarket, driven by a
finite trace of market responses.  `none` means the trace is exhausted while
still short, i.e. the loop keeps running (the call has no attempt cap).
After an iteration that leaves a shortfall the code sleeps the current
backoffDelay and then doubles it, capped at 60000. -/
def buyFromMarketAux (ingredient : String) (quantity : Nat) :
    Nat → Nat → List MarketEvent → Option BuyResult
  | totalPurchased, backoffDelay, [] =>
      if totalPurchased < quantity then none
      else some ⟨totalPurchased, [], [], backoffDelay, []⟩
  | totalPurchased, backoffDelay, e :: rest =>
      if totalPurchased < quantity then
        let s := marketStep ingredient quantity totalPurchased backoffDelay e
        if s.1 < quantity then
          (buyFromMarketAux ingredient quantity s.1 (min (s.2.2 * 2) 60000) rest).map
            (fun r => ⟨r.totalPurchased, s.2.1 ++ r.purchases, s.2.2 :: r.sleeps,
                       r.finalBackoff, e :: r.consumed⟩)
        else some ⟨s.1, s.2.1, [], s.2.2, [e]⟩
      else some ⟨totalPurchased, [], [], backoffDelay, []⟩

/-- buyFromMarket: totalPurchased starts at 0 and backoffDelay at 1000 ms. -/
def buyFromMarket (ingredient : String) (quantity : Nat) (events : List MarketEvent) :
    Option BuyResult :=
  buyFromMarketAux ingredient quantity 0 1000 events

/-- Sum of the quantity_sold column over a list of market_purchases rows. -/
def sumQuantitySold (ps : List MarketPurchase) : Nat :=
  (ps.map MarketPurchase.quantity_sold).sum

/-- The market calls that insert a purchase row: responses with quantitySold > 0. -/
def isPositiveSale : MarketEvent → Bool
  | MarketEvent.ok q => decide (0 < q)
  | MarketEvent.err => false

/-- The sleep sequence produced by n consecutive unsatisfied iterations
starting from backoff bd: each iteration sleeps the current delay, then
doubles it capped at 60000. -/
def backoffSleeps : Nat → Nat → List Nat
  | 0, _ => []
  | n + 1, bd => bd :: backoffSleeps n (min (bd * 2) 60000)

/-! ## Reservation coordinator (handleIngredientRequest) -/

/-- The per-ingredient entry of the ingredientStocks record built by the check
phase: post-purchase quantity (current) and required quantity. -/
structure IngredientCheck where
  ingredient : String
  current : Int
  required : Int
  deriving Repr, DecidableEq

/-- Result of the check phase: the transaction-local stock table and purchase
rows (visible to others only after COMMIT), the ingredientStocks record and
the allIngredientsObtainable flag; or an injected database error (caught by
the surrounding try); or a market purchase loop that never returns. -/
inductive CheckResult where
  | done (txStock : List (String × Int)) (txPurchases : List MarketPurchase)
         (checks : List IngredientCheck) (allObtainable : Bool)
  | errored
  | blocked
  deriving Repr

/-- FASE 1 of handleIngredientRequest: for each recipe entry, SELECT FOR
UPDATE the stock row (0 if absent), buy the shortfall from the market when
current < required, write the topped-up quantity to the locked row, record
the ingredient's post-purchase state, and clear allIngredientsObtainable if
it still falls short.  failAt = some idx injects a throwing database call
while processing entry idx. -/
def checkPhase (market : String → List MarketEvent) (failAt : Option Nat) :
    Nat → List (String × Int) → List (String × Nat) → CheckResult
  | _, txStock, [] => CheckResult.done txStock [] [] true
  | idx, txStock, (ingredient, requiredQuantity) :: rest =>
      if failAt = some idx then CheckResult.errored
      else
        let currentStock := lookupStock txStock ingredient
        if currentStock < (requiredQuantity : Int) then
          match buyFromMarket ingredient ((requiredQuantity : Int) - currentStock).toNat
              (market ingredient) with
          | none => CheckResult.blocked
          | some r =>
              let newCurrent := currentStock + (r.totalPurchased : Int)
              match checkPhase market failAt (idx + 1) (setStock txStock ingredient newCurrent) rest with
              | CheckResult.done s ps cs all =>
                  CheckResult.done s (r.purchases ++ ps)
                    (⟨ingredient, newCurrent, (requiredQuantity : Int)⟩ :: cs)
                    (if newCurrent < (requiredQuantity : Int) then false else all)
              | CheckResult.errored => CheckResult.errored
              | CheckResult.blocked => CheckResult.blocked
        else
          match checkPhase market failAt (idx + 1) txStock rest with
          | CheckResult.done s ps cs all =>
              CheckResult.done s ps
                (⟨ingredient, currentStock, (requiredQuantity : Int)⟩ :: cs)
                (if currentStock < (requiredQuantity : Int) then false else all)
          | CheckResult.errored => CheckResult.errored
          | CheckResult.blocked => CheckResult.blocked

/-- FASE 2 of handleIngredientRequest: decrement every recorded ingredient's
stock by its required quantity (UPDATE ... quantity = quantity - $1) and
build the availableIngredients map (ingredient -> required). -/
def commitPhase : List (String × Int) → List IngredientCheck →
    List (String × Int) × List (String × Int)
  | stock, [] => (stock, [])
  | stock, c :: rest =>
      let stock' := setStock stock c.ingredient (lookupStock stock c.ingredient - c.required)
      let r := commitPhase stock' rest
      (r.1, (c.ingredient, c.required) :: r.2)

/-! ## Retry scheduler (scheduleIngredientRetry) -/

def MAX_RETRY_ATTEMPTS : Nat := 5

def RETRY_DELAYS : List Nat := [30000, 60000, 120000, 300000, 600000]

inductive SchedAction where
  | scheduled (attempt : Nat) (delay : Nat)
  | cancelledOrder
  deriving Repr, DecidableEq

/-- scheduleIngredientRetry: read the per-order attempt counter (0 if
absent); at MAX_RETRY_ATTEMPTS or more, cancel the order and discard the
counter; otherwise bump the counter and schedule a retry after
RETRY_DELAYS[currentAttempts], defaulting to 600000 beyond the table. -/
def scheduleIngredientRetry (retryAttempts : List (Nat × Nat)) (orderId : Nat) :
    List (Nat × Nat) × SchedAction :=
  let currentAttempts := (alistLookup retryAttempts orderId).getD 0
  if MAX_RETRY_ATTEMPTS ≤ currentAttempts then
    (alistErase retryAttempts orderId, SchedAction.cancelledOrder)
  else
    (alistSet retryAttempts orderId (currentAttempts + 1),
     SchedAction.scheduled (currentAttempts + 1) (RETRY_DELAYS.getD currentAttempts 600000))

/-- Iterate scheduleIngredientRetry n times (one call per failed reservation
attempt), collecting the actions taken and the final counter map. -/
def iterateScheduleActions (orderId : Nat) (retryAttempts : List (Nat × Nat)) :
    Nat → List SchedAction × List (Nat × Nat)
  | 0 => ([], retryAttempts)
  | n + 1 =>
      let s := scheduleIngredientRetry retryAttempts orderId
      let r := iterateScheduleActions orderId s.1 n
      (s.2 :: r.1, r.2)

/-! ## The full reservation attempt -/

/-- The durable and process-local state the pantry service acts on: the
pantry_stock and market_purchases tables, the orders.status column and the
process-local retryAttempts map. -/
structure PantryState where
  stock : List (String × Int)
  purchases : List MarketPurchase
  retryAttempts : List (Nat × Nat)
  orderStatus : List (Nat × String)
  deriving Repr

/-- How one invocation of handleIngredientRequest ends. -/
inductive RunOutcome where
  | committed (available : List (String × Int))
  | insufficientRetry (attempt : Nat) (delay : Nat)
  | insufficientCancelled
  | errorRetry (attempt : Nat) (delay : Nat)
  | errorCancelled
  | blocked
  deriving Repr, DecidableEq

def isCommitted : RunOutcome → Bool
  | RunOutcome.committed _ => true
  | _ => false

def isInsufficientOutcome : RunOutcome → Bool
  | RunOutcome.insufficientRetry _ _ => true
  | RunOutcome.insufficientCancelled => true
  | _ => false

/-- One reservation attempt.  On allIngredientsObtainable the decrements are
made and the transaction COMMITs (publishing the topped-up-and-decremented
stock and the purchase rows) and the retry counter is dropped; otherwise the
transaction ROLLs BACK (discarding the transaction-local stock writes and
purchase rows), the order is set to waiting_ingredients and a retry is
scheduled; a caught error likewise rolls back and schedules a retry.  A
blocked market loop never ends the attempt. -/
def handleIngredientRequest (st : PantryState) (orderId : Nat)
    (recipeSnapshot : List (String × Nat)) (market : String → List MarketEvent)
    (failAt : Option Nat) : PantryState × RunOutcome :=
  match checkPhase market failAt 0 st.stock recipeSnapshot with
  | CheckResult.blocked => (st, RunOutcome.blocked)
  | CheckResult.errored =>
      let s := scheduleIngredientRetry st.retryAttempts orderId
      match s.2 with
      | SchedAction.scheduled n d =>
          ({ st with retryAttempts := s.1 }, RunOutcome.errorRetry n d)
      | SchedAction.cancelledOrder =>
          ({ st with
              retryAttempts := s.1
              orderStatus := alistSet st.orderStatus orderId "cancelled" },
           RunOutcome.errorCancelled)
  | CheckResult.done txStock txPurchases checks allObtainable =>
      if allObtainable then
        let c := commitPhase txStock checks
        ({ st with
            stock := c.1
            purchases := st.purchases ++ txPurchases
            retryAttempts := alistErase st.retryAttempts orderId },
         RunOutcome.committed c.2)
      else
        let st1 := { st with orderStatus := alistSet st.orderStatus orderId "waiting_ingredients" }
        let s := scheduleIngredientRetry st1.retryAttempts orderId
        match s.2 with
        | SchedAction.scheduled n d =>
            ({ st1 with retryAttempts := s.1 }, RunOutcome.insufficientRetry n d)
        | SchedAction.cancelledOrder =>
            ({ st1 with
                retryAttempts := s.1
                orderStatus := alistSet st1.orderStatus orderId "cancelled" },
             RunOutcome.insufficientCancelled)

/-! ## Market gateway lemmas -/

theorem marketStep_fst (ingredient : String) (quantity tp bd : Nat) (e : MarketEvent) :
    (marketStep ingredient quantity tp bd e).1
      = tp + sumQuantitySold (marketStep ingredient quantity tp bd e).2.1 := by
  cases e with
  | ok q =>
      by_cases hq : 0 < q <;> simp [marketStep, hq, sumQuantitySold]
  | err => simp [marketStep, sumQuantitySold]

theorem marketStep_records (ingredient : String) (quantity tp bd : Nat) (e : MarketEvent) :
    (∀ p ∈ (marketStep ingredient quantity tp bd e).2.1,
        0 < p.quantity_sold ∧ p.price_per_unit = getIngredientPrice ingredient ∧
          p.total_cost = p.quantity_sold * p.price_per_unit)
    ∧ (marketStep ingredient quantity tp bd e).2.1.length
        = (if isPositiveSale e then 1 else 0) := by
  cases e with
  | ok q =>
      by_cases hq : 0 < q <;>
        simp [marketStep, hq, isPositiveSale, Nat.mul_comm]
  | err => simp [marketStep, isPositiveSale]

theorem buyFromMarketAux_ge (ingredient : String) (quantity : Nat) :
    ∀ (events : List MarketEvent) (tp bd : Nat) (r : BuyResult),
      buyFromMarketAux ingredient quantity tp bd events = some r →
      quantity ≤ r.totalPurchased := by
  intro events
  induction events with
  | nil =>
      intro tp bd r h
      by_cases hlt : tp < quantity
      · simp [buyFromMarketAux, hlt] at h
      · simp only [buyFromMarketAux, if_neg hlt, Option.some.injEq] at h
        rw [← h]
        exact Nat.le_of_not_lt hlt
  | cons e rest ih =>
      intro tp bd r h
      by_cases hlt : tp < quantity
      · by_cases h2 : (marketStep ingredient quantity tp bd e).1 < quantity
        · simp only [buyFromMarketAux, if_pos hlt, if_pos h2, Option.map_eq_some'] at h
          obtain ⟨r0, hrec, hfr⟩ := h
          have := ih _ _ r0 hrec
          rw [← hfr]
          exact this
        · simp only [buyFromMarketAux, if_pos hlt, if_neg h2, Option.some.injEq] at h
          rw [← h]
          exact Nat.le_of_not_lt h2
      · simp only [buyFromMarketAux, if_neg hlt, Option.some.injEq] at h
        rw [← h]
        exact Nat.le_of_not_lt hlt

/-- Shared corollary used by several claims: whenever the purchase loop
returns, it has obtained at least the requested quantity. -/
theorem buyFromMarket_ge (ingredient : String) (quantity : Nat)
    (events : List MarketEvent) (r : BuyResult)
    (h : buyFromMarket ingredient quantity events = some r) :
    quantity ≤ r.totalPurchased :=
  buyFromMarketAux_ge ingredient quantity events 0 1000 r h

theorem buyFromMarketAux_sum (ingredient : String) (quantity : Nat) :
    ∀ (events : List MarketEvent) (tp bd : Nat) (r : BuyResult),
      buyFromMarketAux ingredient quantity tp bd events = some r →
      r.totalPurchased = tp + sumQuantitySold r.purchases := by
  intro events
  induction events with
  | nil =>
      intro tp bd r h
      by_cases hlt : tp < quantity
      · simp [buyFromMarketAux, hlt] at h
      · simp [buyFromMarketAux, hlt] at h
        rw [← h]
        simp [sumQuantitySold]
  | cons e rest ih =>
      intro tp bd r h
      by_cases hlt : tp < quantity
      · by_cases h2 : (marketStep ingredient quantity tp bd e).1 < quantity
        · simp only [buyFromMarketAux, if_pos hlt, if_pos h2, Option.map_eq_some'] at h
          obtain ⟨r0, hrec, hfr⟩ := h
          have hsum := ih _ _ r0 hrec
          have hstep := marketStep_fst ingredient quantity tp bd e
          rw [← hfr]
          simp only [sumQuantitySold, List.map_append, List.sum_append] at hsum hstep ⊢
          omega
        · simp only [buyFromMarketAux, if_pos hlt, if_neg h2, Option.some.injEq] at h
          have hstep := marketStep_fst ingredient quantity tp bd e
          rw [← h]
          exact hstep
      · simp only [buyFromMarketAux, if_neg hlt, Option.some.injEq] at h
        rw [← h]
        simp [sumQuantitySold]

theorem buyFromMarketAux_records (ingredient : String) (quantity : Nat) :
    ∀ (events : List MarketEvent) (tp bd : Nat) (r : BuyResult),
      buyFromMarketAux ingredient quantity tp bd events = some r →
      (∀ p ∈ r.purchases,
          0 < p.quantity_sold ∧ p.price_per_unit = getIngredientPrice ingredient ∧
            p.total_cost = p.quantity_sold * p.price_per_unit)
      ∧ r.purchases.length = r.consumed.countP isPositiveSale := by
  intro events
  induction events with
  | nil =>
      intro tp bd r h
      by_cases hlt : tp < quantity
      · simp [buyFromMarketAux, hlt] at h
      · simp [buyFromMarketAux, hlt] at h
        rw [← h]
        simp
  | cons e rest ih =>
      intro tp bd r h
      by_cases hlt : tp < quantity
      · by_cases h2 : (marketStep ingredient quantity tp bd e).1 < quantity
        · simp only [buyFromMarketAux, if_pos hlt, if_pos h2, Option.map_eq_some'] at h
          obtain ⟨r0, hrec, hfr⟩ := h
          obtain ⟨ihmem, ihlen⟩ := ih _ _ r0 hrec
          obtain ⟨smem, slen⟩ := marketStep_records ingredient quantity tp bd e
          rw [← hfr]
          constructor
          · intro p hp
            simp only [List.mem_append] at hp
            cases hp with
            | inl hp => exact smem p hp
            | inr hp => exact ihmem p hp
          · simp only [List.length_append, ihlen, slen, List.countP_cons]
            cases hpos : isPositiveSale e <;> simp [hpos, Nat.add_comm]
        · simp only [buyFromMarketAux, if_pos hlt, if_neg h2, Option.some.injEq] at h
          obtain ⟨smem, slen⟩ := marketStep_records ingredient quantity tp bd e
          rw [← h]
          constructor
          · exact smem
          · simp only [slen, List.countP_cons, List.countP_nil]
            cases hpos : isPositiveSale e <;> simp [hpos]
      · simp only [buyFromMarketAux, if_neg hlt, Option.some.injEq] at h
        rw [← h]
        simp

theorem buyFromMarketAux_backoff (ingredient : String) (quantity : Nat) (hq : 0 < quantity) :
    ∀ (n bd : Nat),
      buyFromMarketAux ingredient quantity 0 bd
          (List.replicate n MarketEvent.err ++ [MarketEvent.ok quantity])
        = some ⟨quantity,
                [⟨ingredient, quantity, quantity, getIngredientPrice ingredient,
                  quantity * getIngredientPrice ingredient⟩],
                backoffSleeps n bd, 1000,
                List.replicate n MarketEvent.err ++ [MarketEvent.ok quantity]⟩ := by
  intro n
  induction n with
  | zero =>
      intro bd
      simp [buyFromMarketAux, marketStep, hq, backoffSleeps]
  | succ n ih =>
      intro bd
      simp [List.replicate_succ, buyFromMarketAux, marketStep, hq, backoffSleeps, ih]

/-! ## Market gateway claims -/

/-- C4 counterexample: requesting a shortfall of 1 when the market sells 2 in
one call makes buyFromMarket return quantityObtained 2, not the requested 1
(the buy endpoint takes no quantity parameter, so a response can overshoot). -/
theorem buy_exceeds_request_cex :
    (buyFromMarket "tomato" 1 [MarketEvent.ok 2]).map BuyResult.totalPurchased = some 2
    ∧ (2 : Nat) ≠ 1 := by
  refine ⟨?_, by decide⟩
  rfl

/-- C4 (amended): the purchase loop keeps calling the market while
totalPurchased < neededQuantity, so whenever buyFromMarket returns, the
returned quantityObtained is at least (not necessarily equal to) the
requested neededQuantity. -/
theorem buy_meets_needed (ingredient : String) (quantity : Nat)
    (events : List MarketEvent) (r : BuyResult)
    (h : buyFromMarket ingredient quantity events = some r) :
    quantity ≤ r.totalPurchased :=
  buyFromMarket_ge ingredient quantity events r h

theorem buy_meets_needed_witness :
    buyFromMarket "x" 1 [MarketEvent.ok 2]
        = some ⟨2, [⟨"x", 1, 2, 200, 400⟩], [], 1000, [MarketEvent.ok 2]⟩
    ∧ 1 ≤ (2 : Nat) :=
  ⟨by decide,
   buy_meets_needed "x" 1 [MarketEvent.ok 2]
     ⟨2, [⟨"x", 1, 2, 200, 400⟩], [], 1000, [MarketEvent.ok 2]⟩ (by decide)⟩

/-- C7: the sum of quantity_sold over the market_purchases rows inserted by
one purchase loop equals the quantityObtained the loop returns. -/
theorem purchases_sum_eq_obtained (ingredient : String) (quantity : Nat)
    (events : List MarketEvent) (r : BuyResult)
    (h : buyFromMarket ingredient quantity events = some r) :
    sumQuantitySold r.purchases = r.totalPurchased := by
  have hs := buyFromMarketAux_sum ingredient quantity events 0 1000 r h
  omega

theorem purchases_sum_eq_obtained_witness :
    buyFromMarket "x" 2 [MarketEvent.err, MarketEvent.ok 0, MarketEvent.ok 3]
        = some ⟨3, [⟨"x", 2, 3, 200, 600⟩], [1000, 2000], 1000,
                [MarketEvent.err, MarketEvent.ok 0, MarketEvent.ok 3]⟩
    ∧ sumQuantitySold [⟨"x", 2, 3, 200, 600⟩] = 3 :=
  ⟨by decide,
   purchases_sum_eq_obtained "x" 2 [MarketEvent.err, MarketEvent.ok 0, MarketEvent.ok 3]
     ⟨3, [⟨"x", 2, 3, 200, 600⟩], [1000, 2000], 1000,
      [MarketEvent.err, MarketEvent.ok 0, MarketEvent.ok 3]⟩ (by decide)⟩

/-- C8 counterexample: after the first empty/failed market call the gateway
sleeps the pre-doubling 1000 ms delay; the claim's "sleeps that increased
delay" would predict min (1000 * 2) 60000 = 2000 ms for that first sleep. -/
theorem backoff_sleep_cex :
    (buyFromMarket "tomato" 1 [MarketEvent.err, MarketEvent.ok 1]).map BuyResult.sleeps
        = some [1000]
    ∧ (1000 : Nat) ≠ min (1000 * 2) 60000 := by
  refine ⟨?_, by decide⟩
  rfl

/-- C8 (amended): each failed or empty call that leaves a shortfall sleeps
the current backoff delay and only then doubles it, capped at 60000 ms — n
consecutive failures sleep backoffSleeps n 1000 = [1000, 2000, 4000, ...]
with ceiling 60000 — and a successful purchase (quantitySold > 0) resets the
delay to its 1000 ms floor, as the finalBackoff of the returned result shows. -/
theorem backoff_doubling (ingredient : String) (quantity n : Nat) (hq : 0 < quantity) :
    buyFromMarket ingredient quantity
        (List.replicate n MarketEvent.err ++ [MarketEvent.ok quantity])
      = some ⟨quantity,
              [⟨ingredient, quantity, quantity, getIngredientPrice ingredient,
                quantity * getIngredientPrice ingredient⟩],
              backoffSleeps n 1000, 1000,
              List.replicate n MarketEvent.err ++ [MarketEvent.ok quantity]⟩ :=
  buyFromMarketAux_backoff ingredient quantity hq n 1000

theorem backoff_doubling_witness :
    0 < 1
    ∧ buyFromMarket "x" 1 [MarketEvent.err, MarketEvent.err, MarketEvent.ok 1]
        = some ⟨1, [⟨"x", 1, 1, 200, 200⟩], [1000, 2000], 1000,
                [MarketEvent.err, MarketEvent.err, MarketEvent.ok 1]⟩ :=
  ⟨by decide, backoff_doubling "x" 1 2 (by decide)⟩

/-- C9: a market_purchases row is inserted exactly for each market call that
returns quantitySold > 0 (empty responses and errors insert nothing); each
row's price_per_unit comes from the deterministic per-ingredient price table
(with the 2.00 = 200-cent default for unknown ingredients) and total_cost
equals quantity_sold times price_per_unit. -/
theorem purchase_records_spec (ingredient : String) (quantity : Nat)
    (events : List MarketEvent) (r : BuyResult)
    (h : buyFromMarket ingredient quantity events = some r) :
    (∀ p ∈ r.purchases,
        0 < p.quantity_sold ∧ p.price_per_unit = getIngredientPrice ingredient ∧
          p.total_cost = p.quantity_sold * p.price_per_unit)
    ∧ r.purchases.length = r.consumed.countP isPositiveSale
    ∧ getIngredientPrice "cheese" = 450
    ∧ getIngredientPrice "unobtainium" = 200 := by
  have hr := buyFromMarketAux_records ingredient quantity events 0 1000 r h
  exact ⟨hr.1, hr.2, by decide, by decide⟩

theorem purchase_records_spec_witness :
    buyFromMarket "y" 2 [MarketEvent.err, MarketEvent.ok 0, MarketEvent.ok 3]
        = some ⟨3, [⟨"y", 2, 3, 200, 600⟩], [1000, 2000], 1000,
                [MarketEvent.err, MarketEvent.ok 0, MarketEvent.ok 3]⟩
    ∧ ((∀ p ∈ [(⟨"y", 2, 3, 200, 600⟩ : MarketPurchase)],
          0 < p.quantity_sold ∧ p.price_per_unit = getIngredientPrice "y" ∧
            p.total_cost = p.quantity_sold * p.price_per_unit)
       ∧ [(⟨"y", 2, 3, 200, 600⟩ : MarketPurchase)].length
           = [MarketEvent.err, MarketEvent.ok 0, MarketEvent.ok 3].countP isPositiveSale
       ∧ getIngredientPrice "cheese" = 450
       ∧ getIngredientPrice "unobtainium" = 200) :=
  ⟨by decide,
   purchase_records_spec "y" 2 [MarketEvent.err, MarketEvent.ok 0, MarketEvent.ok 3]
     ⟨3, [⟨"y", 2, 3, 200, 600⟩], [1000, 2000], 1000,
      [MarketEvent.err, MarketEvent.ok 0, MarketEvent.ok 3]⟩ (by decide)⟩

/-! ## Check-phase and commit-phase lemmas -/

/-- Inversion of a completed check phase: every recorded ingredient has a
nonnegative requirement met by its post-purchase quantity (the market loop
only returns once the shortfall is covered), the allIngredientsObtainable
flag is true, the recorded ingredients are exactly the recipe's, and stock
rows outside the recipe are untouched by the transaction. -/
theorem checkPhase_done_inv (market : String → List MarketEvent) (failAt : Option Nat) :
    ∀ (recipe : List (String × Nat)) (idx : Nat) (stock tx : List (String × Int))
      (ps : List MarketPurchase) (checks : List IngredientCheck) (all : Bool),
      checkPhase market failAt idx stock recipe = CheckResult.done tx ps checks all →
      (∀ c ∈ checks, 0 ≤ c.required ∧ c.required ≤ c.current)
      ∧ all = true
      ∧ checks.map IngredientCheck.ingredient = recipe.map Prod.fst
      ∧ ∀ x : String, x ∉ recipe.map Prod.fst → lookupStock tx x = lookupStock stock x := by
  intro recipe
  induction recipe with
  | nil =>
      intro idx stock tx ps checks all h
      simp only [checkPhase, CheckResult.done.injEq] at h
      obtain ⟨htx, hps, hchecks, hall⟩ := h
      subst htx
      subst hchecks
      subst hall
      simp
  | cons entry rest ih =>
      intro idx stock tx ps checks all h
      obtain ⟨ingredient, requiredQuantity⟩ := entry
      by_cases hf : failAt = some idx
      · simp [checkPhase, hf] at h
      · by_cases hcur : lookupStock stock ingredient < (requiredQuantity : Int)
        · simp only [checkPhase, if_neg hf, if_pos hcur] at h
          split at h
          next hbuy => simp at h
          next r hbuy =>
            split at h
            next s ps' cs' all' hrec =>
              simp only [CheckResult.done.injEq] at h
              obtain ⟨htx, hps, hchecks, hall⟩ := h
              obtain ⟨ihmem, ihall, ihmap, ihpres⟩ :=
                ih (idx + 1) (setStock stock ingredient
                  (lookupStock stock ingredient + (r.totalPurchased : Int))) s ps' cs' all' hrec
              subst ihall
              have hge := buyFromMarket_ge ingredient
                ((requiredQuantity : Int) - lookupStock stock ingredient).toNat
                (market ingredient) r hbuy
              have hcover : (requiredQuantity : Int)
                  ≤ lookupStock stock ingredient + (r.totalPurchased : Int) := by
                omega
              refine ⟨?_, ?_, ?_, ?_⟩
              · intro c hc
                rw [← hchecks] at hc
                cases hc with
                | head => exact ⟨Int.natCast_nonneg requiredQuantity, hcover⟩
                | tail _ hc => exact ihmem c hc
              · rw [← hall]
                simp [not_lt.mpr hcover]
              · rw [← hchecks]
                simp [ihmap]
              · intro x hx
                simp only [List.map_cons, List.mem_cons] at hx
                push_neg at hx
                rw [← htx, ihpres x hx.2, lookupStock_set_ne stock ingredient x _ hx.1]
            next hrec => simp at h
            next hrec => simp at h
        · simp only [checkPhase, if_neg hf, if_neg hcur] at h
          split at h
          next s ps' cs' all' hrec =>
            simp only [CheckResult.done.injEq] at h
            obtain ⟨htx, hps, hchecks, hall⟩ := h
            obtain ⟨ihmem, ihall, ihmap, ihpres⟩ := ih (idx + 1) stock s ps' cs' all' hrec
            subst ihall
            refine ⟨?_, ?_, ?_, ?_⟩
            · intro c hc
              rw [← hchecks] at hc
              cases hc with
              | head => exact ⟨Int.natCast_nonneg requiredQuantity, not_lt.mp hcur⟩
              | tail _ hc => exact ihmem c hc
            · rw [← hall]
            · rw [← hchecks]
              simp [ihmap]
            · intro x hx
              simp only [List.map_cons, List.mem_cons] at hx
              push_neg at hx
              rw [← htx, ihpres x hx.2]
          next hrec => simp at h
          next hrec => simp at h

/-- With distinct recipe ingredients, the transaction-local stock row of each
recorded ingredient holds exactly its recorded post-purchase quantity when
the check phase completes. -/
theorem checkPhase_done_tx (market : String → List MarketEvent) (failAt : Option Nat) :
    ∀ (recipe : List (String × Nat)) (idx : Nat) (stock tx : List (String × Int))
      (ps : List MarketPurchase) (checks : List IngredientCheck) (all : Bool),
      (recipe.map Prod.fst).Nodup →
      checkPhase market failAt idx stock recipe = CheckResult.done tx ps checks all →
      ∀ c ∈ checks, lookupStock tx c.ingredient = c.current := by
  intro recipe
  induction recipe with
  | nil =>
      intro idx stock tx ps checks all hnd h
      simp only [checkPhase, CheckResult.done.injEq] at h
      obtain ⟨htx, hps, hchecks, hall⟩ := h
      subst hchecks
      simp
  | cons entry rest ih =>
      intro idx stock tx ps checks all hnd h
      obtain ⟨ingredient, requiredQuantity⟩ := entry
      simp only [List.map_cons, List.nodup_cons] at hnd
      obtain ⟨hni, hndrest⟩ := hnd
      by_cases hf : failAt = some idx
      · simp [checkPhase, hf] at h
      · by_cases hcur : lookupStock stock ingredient < (requiredQuantity : Int)
        · simp only [checkPhase, if_neg hf, if_pos hcur] at h
          split at h
          next hbuy => simp at h
          next r hbuy =>
            split at h
            next s ps' cs' all' hrec =>
              simp only [CheckResult.done.injEq] at h
              obtain ⟨htx, hps, hchecks, hall⟩ := h
              obtain ⟨-, -, ihmap, ihpres⟩ :=
                checkPhase_done_inv market failAt rest (idx + 1)
                  (setStock stock ingredient
                    (lookupStock stock ingredient + (r.totalPurchased : Int))) s ps' cs' all' hrec
              intro c hc
              rw [← hchecks] at hc
              cases hc with
              | head =>
                  rw [← htx, ihpres ingredient hni]
                  exact lookupStock_set_self stock ingredient _
              | tail _ hc =>
                  rw [← htx]
                  exact ih (idx + 1) _ s ps' cs' all' hndrest hrec c hc
            next hrec => simp at h
            next hrec => simp at h
        · simp only [checkPhase, if_neg hf, if_neg hcur] at h
          split at h
          next s ps' cs' all' hrec =>
            simp only [CheckResult.done.injEq] at h
            obtain ⟨htx, hps, hchecks, hall⟩ := h
            obtain ⟨-, -, ihmap, ihpres⟩ :=
              checkPhase_done_inv market failAt rest (idx + 1) stock s ps' cs' all' hrec
            intro c hc
            rw [← hchecks] at hc
            cases hc with
            | head => rw [← htx, ihpres ingredient hni]
            | tail _ hc =>
                rw [← htx]
                exact ih (idx + 1) stock s ps' cs' all' hndrest hrec c hc
          next hrec => simp at h
          next hrec => simp at h

/-- The commit phase does not touch stock rows outside the recorded set. -/
theorem commitPhase_preserve :
    ∀ (checks : List IngredientCheck) (stock : List (String × Int)) (x : String),
      x ∉ checks.map IngredientCheck.ingredient →
      lookupStock (commitPhase stock checks).1 x = lookupStock stock x := by
  intro checks
  induction checks with
  | nil => intro stock x _; rfl
  | cons c rest ih =>
      intro stock x hx
      simp only [List.map_cons, List.mem_cons] at hx
      push_neg at hx
      simp only [commitPhase]
      rw [ih _ x hx.2, lookupStock_set_ne _ _ _ _ hx.1]

/-- With distinct recorded ingredients, the commit phase decrements each
recorded ingredient's row by exactly its required quantity. -/
theorem commitPhase_lookup :
    ∀ (checks : List IngredientCheck) (stock : List (String × Int)),
      (checks.map IngredientCheck.ingredient).Nodup →
      ∀ c ∈ checks,
        lookupStock (commitPhase stock checks).1 c.ingredient
          = lookupStock stock c.ingredient - c.required := by
  intro checks
  induction checks with
  | nil =>
      intro stock _ c hc
      simp at hc
  | cons c0 rest ih =>
      intro stock hnd c hc
      simp only [List.map_cons, List.nodup_cons] at hnd
      obtain ⟨hni, hndrest⟩ := hnd
      simp only [commitPhase]
      cases hc with
      | head =>
          rw [commitPhase_preserve rest _ c0.ingredient hni]
          exact lookupStock_set_self stock c0.ingredient _
      | tail _ hc =>
          have hne : c.ingredient ≠ c0.ingredient := by
            intro he
            exact hni (he ▸ List.mem_map_of_mem IngredientCheck.ingredient hc)
          rw [ih _ hndrest c hc, lookupStock_set_ne _ _ _ _ hne]

/-- Rollback leaves the durable tables untouched: any reservation attempt
that does not commit leaves pantry_stock and market_purchases exactly as
they were (the stock top-ups and purchase-row inserts of the check phase
lived only inside the rolled-back transaction). -/
theorem handle_rollback_tables (st : PantryState) (orderId : Nat)
    (recipeSnapshot : List (String × Nat)) (market : String → List MarketEvent)
    (failAt : Option Nat)
    (h : isCommitted (handleIngredientRequest st orderId recipeSnapshot market failAt).2 = false) :
    (handleIngredientRequest st orderId recipeSnapshot market failAt).1.stock = st.stock
    ∧ (handleIngredientRequest st orderId recipeSnapshot market failAt).1.purchases
        = st.purchases := by
  cases hcp : checkPhase market failAt 0 st.stock recipeSnapshot with
  | done tx ps checks all =>
      obtain ⟨-, hall, -, -⟩ :=
        checkPhase_done_inv market failAt recipeSnapshot 0 st.stock tx ps checks all hcp
      subst hall
      simp [handleIngredientRequest, hcp, isCommitted] at h
  | errored =>
      simp only [handleIngredientRequest, hcp]
      cases h2 : (scheduleIngredientRetry st.retryAttempts orderId).2 <;> simp [h2]
  | blocked => simp [handleIngredientRequest, hcp]

/-- The outcome of a reservation attempt never depends on the orders.status
column: neither handleIngredientRequest nor scheduleIngredientRetry reads it. -/
theorem handle_outcome_ignores_status (stock : List (String × Int))
    (purchases : List MarketPurchase) (retry : List (Nat × Nat))
    (s1 s2 : List (Nat × String)) (orderId : Nat)
    (recipeSnapshot : List (String × Nat)) (market : String → List MarketEvent)
    (failAt : Option Nat) :
    (handleIngredientRequest ⟨stock, purchases, retry, s1⟩ orderId recipeSnapshot market failAt).2
      = (handleIngredientRequest ⟨stock, purchases, retry, s2⟩ orderId recipeSnapshot market failAt).2 := by
  simp only [handleIngredientRequest]
  cases hcp : checkPhase market failAt 0 stock recipeSnapshot with
  | done tx ps checks all =>
      cases all with
      | true => simp
      | false =>
          cases h2 : (scheduleIngredientRetry retry orderId).2 <;> simp [h2]
  | errored =>
      cases h2 : (scheduleIngredientRetry retry orderId).2 <;> simp [h2]
  | blocked => simp

/-! ## Reservation and scheduler claims -/

/-- C1: reservation is all-or-nothing.  A reservation attempt that does not
commit leaves the stock table exactly as it was (the transaction rolls back,
so no stock decrement is committed for any ingredient of the order); and
when the check phase completes, every recorded ingredient's post-purchase
quantity meets its requirement and the committed stock holds exactly that
quantity minus the required quantity, i.e. a decrement of exactly the
required quantity per ingredient. -/
theorem reservation_all_or_nothing (st : PantryState) (orderId : Nat)
    (recipeSnapshot : List (String × Nat)) (market : String → List MarketEvent)
    (failAt : Option Nat)
    (hnodup : (recipeSnapshot.map Prod.fst).Nodup) :
    (isCommitted (handleIngredientRequest st orderId recipeSnapshot market failAt).2 = false →
        (handleIngredientRequest st orderId recipeSnapshot market failAt).1.stock = st.stock)
    ∧ (∀ (tx : List (String × Int)) (ps : List MarketPurchase)
         (checks : List IngredientCheck) (allObt : Bool),
         checkPhase market failAt 0 st.stock recipeSnapshot
             = CheckResult.done tx ps checks allObt →
         ∀ c ∈ checks,
           c.required ≤ c.current ∧
             lookupStock
                 (handleIngredientRequest st orderId recipeSnapshot market failAt).1.stock
                 c.ingredient
               = c.current - c.required) := by
  constructor
  · intro hnc
    exact (handle_rollback_tables st orderId recipeSnapshot market failAt hnc).1
  · intro tx ps checks allObt hcp c hc
    obtain ⟨hreq, hall, hmap, -⟩ :=
      checkPhase_done_inv market failAt recipeSnapshot 0 st.stock tx ps checks allObt hcp
    subst hall
    have hnodupchecks : (checks.map IngredientCheck.ingredient).Nodup := by
      rw [hmap]
      exact hnodup
    have htx := checkPhase_done_tx market failAt recipeSnapshot 0 st.stock tx ps checks true
      hnodup hcp c hc
    have hcl := commitPhase_lookup checks tx hnodupchecks c hc
    have hstock : (handleIngredientRequest st orderId recipeSnapshot market failAt).1.stock
        = (commitPhase tx checks).1 := by
      simp [handleIngredientRequest, hcp]
    refine ⟨(hreq c hc).2, ?_⟩
    rw [hstock, hcl, htx]

theorem reservation_all_or_nothing_witness :
    ((([("tomato", 2), ("cheese", 1)] : List (String × Nat)).map Prod.fst).Nodup)
    ∧ ((isCommitted (handleIngredientRequest ⟨[("tomato", 1)], [], [], []⟩ 1
            [("tomato", 2), ("cheese", 1)]
            (fun i => if i = "tomato" then [MarketEvent.ok 1]
                      else if i = "cheese" then [MarketEvent.ok 1] else []) none).2 = false →
          (handleIngredientRequest ⟨[("tomato", 1)], [], [], []⟩ 1
            [("tomato", 2), ("cheese", 1)]
            (fun i => if i = "tomato" then [MarketEvent.ok 1]
                      else if i = "cheese" then [MarketEvent.ok 1] else []) none).1.stock
            = [("tomato", 1)])
       ∧ (∀ (tx : List (String × Int)) (ps : List MarketPurchase)
            (checks : List IngredientCheck) (allObt : Bool),
            checkPhase (fun i => if i = "tomato" then [MarketEvent.ok 1]
                      else if i = "cheese" then [MarketEvent.ok 1] else []) none 0
                [("tomato", 1)] [("tomato", 2), ("cheese", 1)]
              = CheckResult.done tx ps checks allObt →
            ∀ c ∈ checks,
              c.required ≤ c.current ∧
                lookupStock (handleIngredientRequest ⟨[("tomato", 1)], [], [], []⟩ 1
                    [("tomato", 2), ("cheese", 1)]
                    (fun i => if i = "tomato" then [MarketEvent.ok 1]
                              else if i = "cheese" then [MarketEvent.ok 1] else []) none).1.stock
                    c.ingredient
                  = c.current - c.required)) :=
  ⟨by decide,
   reservation_all_or_nothing ⟨[("tomato", 1)], [], [], []⟩ 1 [("tomato", 2), ("cheese", 1)]
     (fun i => if i = "tomato" then [MarketEvent.ok 1]
               else if i = "cheese" then [MarketEvent.ok 1] else []) none (by decide)⟩

/-- C3: stock never goes negative.  If every stock row is nonnegative before
a reservation attempt, every stock row is nonnegative after it: the commit
phase decrements only ingredients whose checked post-purchase quantity was
established (under the row lock) to be at least the required quantity, and a
non-committing attempt leaves stock unchanged. -/
theorem stock_never_negative (st : PantryState) (orderId : Nat)
    (recipeSnapshot : List (String × Nat)) (market : String → List MarketEvent)
    (failAt : Option Nat)
    (hnodup : (recipeSnapshot.map Prod.fst).Nodup)
    (hnonneg : ∀ x : String, 0 ≤ lookupStock st.stock x) :
    ∀ x : String,
      0 ≤ lookupStock
          (handleIngredientRequest st orderId recipeSnapshot market failAt).1.stock x := by
  intro x
  cases hcp : checkPhase market failAt 0 st.stock recipeSnapshot with
  | done tx ps checks all =>
      obtain ⟨hreq, hall, hmap, hpres⟩ :=
        checkPhase_done_inv market failAt recipeSnapshot 0 st.stock tx ps checks all hcp
      subst hall
      have hstock : (handleIngredientRequest st orderId recipeSnapshot market failAt).1.stock
          = (commitPhase tx checks).1 := by
        simp [handleIngredientRequest, hcp]
      rw [hstock]
      by_cases hx : x ∈ checks.map IngredientCheck.ingredient
      · obtain ⟨c, hc, hcx⟩ := List.mem_map.mp hx
        have hnodupchecks : (checks.map IngredientCheck.ingredient).Nodup := by
          rw [hmap]
          exact hnodup
        have hcl := commitPhase_lookup checks tx hnodupchecks c hc
        have htx := checkPhase_done_tx market failAt recipeSnapshot 0 st.stock tx ps checks true
          hnodup hcp c hc
        rw [← hcx, hcl, htx]
        have hc2 := hreq c hc
        omega
      · rw [commitPhase_preserve checks tx x hx]
        have hx' : x ∉ recipeSnapshot.map Prod.fst := by
          rw [← hmap]
          exact hx
        rw [hpres x hx']
        exact hnonneg x
  | errored =>
      have hst : (handleIngredientRequest st orderId recipeSnapshot market failAt).1.stock
          = st.stock := by
        simp only [handleIngredientRequest, hcp]
        cases h2 : (scheduleIngredientRetry st.retryAttempts orderId).2 <;> simp [h2]
      rw [hst]
      exact hnonneg x
  | blocked =>
      have hst : (handleIngredientRequest st orderId recipeSnapshot market failAt).1.stock
          = st.stock := by
        simp [handleIngredientRequest, hcp]
      rw [hst]
      exact hnonneg x

theorem stock_never_negative_witness :
    ((([("meat", 1)] : List (String × Nat)).map Prod.fst).Nodup)
    ∧ (∀ x : String, 0 ≤ lookupStock ([] : List (String × Int)) x)
    ∧ (∀ x : String,
        0 ≤ lookupStock
            (handleIngredientRequest ⟨[], [], [], []⟩ 1 [("meat", 1)]
              (fun i => if i = "meat" then [MarketEvent.ok 1] else []) none).1.stock x) :=
  ⟨by decide,
   fun x => by simp [lookupStock, alistLookup],
   stock_never_negative ⟨[], [], [], []⟩ 1 [("meat", 1)]
     (fun i => if i = "meat" then [MarketEvent.ok 1] else []) none (by decide)
     (fun x => by simp [lookupStock, alistLookup])⟩

/-- C10 (implicit): whenever the market loop returns, every checked
ingredient's post-purchase quantity meets its requirement, so the
allIngredientsObtainable = false branch (rollback, waiting_ingredients,
scheduled retry) is unreachable: no run of handleIngredientRequest ever
produces an Insufficient-branch outcome; a reservation attempt can fail only
through the caught-exception path. -/
theorem insufficient_branch_unreachable (st : PantryState) (orderId : Nat)
    (recipeSnapshot : List (String × Nat)) (market : String → List MarketEvent)
    (failAt : Option Nat) :
    isInsufficientOutcome
        (handleIngredientRequest st orderId recipeSnapshot market failAt).2 = false := by
  cases hcp : checkPhase market failAt 0 st.stock recipeSnapshot with
  | done tx ps checks all =>
      obtain ⟨-, hall, -, -⟩ :=
        checkPhase_done_inv market failAt recipeSnapshot 0 st.stock tx ps checks all hcp
      subst hall
      simp [handleIngredientRequest, hcp, isInsufficientOutcome]
  | errored =>
      simp only [handleIngredientRequest, hcp]
      cases h2 : (scheduleIngredientRetry st.retryAttempts orderId).2 <;>
        simp [h2, isInsufficientOutcome]
  | blocked => simp [handleIngredientRequest, hcp, isInsufficientOutcome]

/-- C5 counterexample: an attempt that buys 2 units of tomato from the market
and then hits a database error on the next ingredient rolls back everything:
the committed stock still shows tomato at 0 (the top-up is lost) and no
market_purchases row survives, even though the gateway had purchased 2 units. -/
theorem market_persist_cex :
    buyFromMarket "tomato" 2 [MarketEvent.ok 2]
        = some ⟨2, [⟨"tomato", 2, 2, 200, 400⟩], [], 1000, [MarketEvent.ok 2]⟩
    ∧ (handleIngredientRequest ⟨[("tomato", 0)], [], [], []⟩ 3 [("tomato", 2), ("meat", 1)]
          (fun i => if i = "tomato" then [MarketEvent.ok 2] else []) (some 1)).2
        = RunOutcome.errorRetry 1 30000
    ∧ (handleIngredientRequest ⟨[("tomato", 0)], [], [], []⟩ 3 [("tomato", 2), ("meat", 1)]
          (fun i => if i = "tomato" then [MarketEvent.ok 2] else []) (some 1)).1.stock
        = [("tomato", 0)]
    ∧ (handleIngredientRequest ⟨[("tomato", 0)], [], [], []⟩ 3 [("tomato", 2), ("meat", 1)]
          (fun i => if i = "tomato" then [MarketEvent.ok 2] else []) (some 1)).1.purchases
        = [] :=
  ⟨by decide, by decide, by decide, by decide⟩

/-- C5 (amended): market purchase results do not persist past a failed
reservation: the stock top-up and the market_purchases inserts are part of
the reservation's transaction, so every attempt that does not commit leaves
both tables exactly as they were; purchases are retained only when the whole
reservation commits. -/
theorem purchase_rollback_spec (st : PantryState) (orderId : Nat)
    (recipeSnapshot : List (String × Nat)) (market : String → List MarketEvent)
    (failAt : Option Nat)
    (h : isCommitted (handleIngredientRequest st orderId recipeSnapshot market failAt).2
        = false) :
    (handleIngredientRequest st orderId recipeSnapshot market failAt).1.purchases = st.purchases
    ∧ (handleIngredientRequest st orderId recipeSnapshot market failAt).1.stock = st.stock := by
  obtain ⟨h1, h2⟩ := handle_rollback_tables st orderId recipeSnapshot market failAt h
  exact ⟨h2, h1⟩

theorem purchase_rollback_spec_witness :
    isCommitted (handleIngredientRequest ⟨[("tomato", 0)], [], [], []⟩ 3
          [("tomato", 2), ("meat", 1)]
          (fun i => if i = "tomato" then [MarketEvent.ok 2] else []) (some 1)).2 = false
    ∧ ((handleIngredientRequest ⟨[("tomato", 0)], [], [], []⟩ 3 [("tomato", 2), ("meat", 1)]
          (fun i => if i = "tomato" then [MarketEvent.ok 2] else []) (some 1)).1.purchases = []
       ∧ (handleIngredientRequest ⟨[("tomato", 0)], [], [], []⟩ 3 [("tomato", 2), ("meat", 1)]
          (fun i => if i = "tomato" then [MarketEvent.ok 2] else []) (some 1)).1.stock
         = [("tomato", 0)]) :=
  ⟨by decide,
   purchase_rollback_spec ⟨[("tomato", 0)], [], [], []⟩ 3 [("tomato", 2), ("meat", 1)]
     (fun i => if i = "tomato" then [MarketEvent.ok 2] else []) (some 1) (by decide)⟩

set_option maxHeartbeats 2000000 in
/-- C2: an order whose reservation attempts keep failing gets exactly
MAX_RETRY_ATTEMPTS = 5 scheduled retries, at delays 30000, 60000, 120000,
300000 and 600000 ms, and the next failure cancels it; the delay table
defaults to its last value 600000 for any attempt index at or beyond its
length; cancellation sets the order's status to cancelled and discards its
retry counter. -/
theorem retry_bound (orderId : Nat) :
    (iterateScheduleActions orderId [] 6).1
      = [SchedAction.scheduled 1 30000, SchedAction.scheduled 2 60000,
         SchedAction.scheduled 3 120000, SchedAction.scheduled 4 300000,
         SchedAction.scheduled 5 600000, SchedAction.cancelledOrder]
    ∧ (iterateScheduleActions orderId [] 6).2 = []
    ∧ (∀ n : Nat, RETRY_DELAYS.getD (MAX_RETRY_ATTEMPTS + n) 600000 = 600000)
    ∧ (handleIngredientRequest ⟨[], [], [(orderId, MAX_RETRY_ATTEMPTS)], []⟩ orderId
        [("meat", 1)] (fun _ => []) (some 0)).1.orderStatus = [(orderId, "cancelled")]
    ∧ (handleIngredientRequest ⟨[], [], [(orderId, MAX_RETRY_ATTEMPTS)], []⟩ orderId
        [("meat", 1)] (fun _ => []) (some 0)).1.retryAttempts = []
    ∧ (handleIngredientRequest ⟨[], [], [(orderId, MAX_RETRY_ATTEMPTS)], []⟩ orderId
        [("meat", 1)] (fun _ => []) (some 0)).2 = RunOutcome.errorCancelled := by
  refine ⟨?_, ?_, ?_, ?_, ?_, ?_⟩
  · simp [iterateScheduleActions, scheduleIngredientRetry, alistLookup, alistSet, alistErase,
      MAX_RETRY_ATTEMPTS, RETRY_DELAYS, List.getD]
  · simp [iterateScheduleActions, scheduleIngredientRetry, alistLookup, alistSet, alistErase,
      MAX_RETRY_ATTEMPTS, RETRY_DELAYS, List.getD]
  · intro n
    apply List.getD_eq_default
    simp [RETRY_DELAYS, MAX_RETRY_ATTEMPTS]
  · simp [handleIngredientRequest, checkPhase, scheduleIngredientRetry, alistLookup, alistSet,
      alistErase, MAX_RETRY_ATTEMPTS]
  · simp [handleIngredientRequest, checkPhase, scheduleIngredientRetry, alistLookup, alistSet,
      alistErase, MAX_RETRY_ATTEMPTS]
  · simp [handleIngredientRequest, checkPhase, scheduleIngredientRetry, alistLookup, alistSet,
      alistErase, MAX_RETRY_ATTEMPTS]

/-- C6 counterexample: an order whose status is already cancelled gets a new
reservation attempt scheduled when its ingredient request is reprocessed and
fails — neither handleIngredientRequest nor scheduleIngredientRetry checks
the order's status, and the cancelled order's counter was discarded, so the
retry starts again at attempt 1 with delay 30000 ms. -/
theorem terminal_not_idempotent_cex :
    alistLookup ([(7, "cancelled")] : List (Nat × String)) 7 = some "cancelled"
    ∧ (handleIngredientRequest ⟨[], [], [], [(7, "cancelled")]⟩ 7 [("meat", 1)]
          (fun _ => []) (some 0)).2 = RunOutcome.errorRetry 1 30000 :=
  ⟨by decide, by decide⟩

/-- C6 (amended): once an order is cancelled the scheduler itself holds no
counter for it and schedules nothing further on its own (the cancelling call
discards the counter and schedules no retry); but the code never consults
orders.status, so the outcome of reprocessing an ingredient request is
independent of the order's (possibly terminal) status, and such reprocessing
can schedule fresh reservation attempts for a completed or cancelled order. -/
theorem terminal_state_amended (st : PantryState) (orderId : Nat)
    (recipeSnapshot : List (String × Nat)) (market : String → List MarketEvent)
    (failAt : Option Nat) (status1 status2 : List (Nat × String)) :
    (handleIngredientRequest { st with orderStatus := status1 } orderId recipeSnapshot
        market failAt).2
      = (handleIngredientRequest { st with orderStatus := status2 } orderId recipeSnapshot
          market failAt).2
    ∧ (scheduleIngredientRetry (alistSet st.retryAttempts orderId MAX_RETRY_ATTEMPTS) orderId).2
        = SchedAction.cancelledOrder
    ∧ alistLookup
        (scheduleIngredientRetry (alistSet st.retryAttempts orderId MAX_RETRY_ATTEMPTS)
          orderId).1 orderId
      = none := by
  refine ⟨?_, ?_, ?_⟩
  · exact handle_outcome_ignores_status st.stock st.purchases st.retryAttempts status1 status2
      orderId recipeSnapshot market failAt
  · simp [scheduleIngredientRetry, alistLookup_set_self, MAX_RETRY_ATTEMPTS]
  · simp [scheduleIngredientRetry, alistLookup_set_self, MAX_RETRY_ATTEMPTS,
      alistLookup_erase_self]

end Pantry
